import Mathlib

/-!
Shallow embedding of the Portfolio Position & Analytics Engine of the
portfoliosuite repository (Django app `stocks`), together with proofs about
the embedded operations.

Conventions used throughout:
* Python `Decimal` / `float` values are modelled as `Rat` (the claims under
  study are algebraic, not about binary rounding).
* Python `datetime.date` values are modelled as `Nat` day indices wherever
  only their linear order matters; the calendar-projection code, which needs
  real month/day arithmetic, uses the explicit `PyDate` structure below.
* Django ORM queries over the `Portfolio` (transaction ledger) and
  `StockPrice` tables are modelled as list filters over in-memory snapshots
  of those tables; `order_by('date')` becomes a merge sort on the date key.
* A Python expression that can raise is modelled with `Option`/`Except`
  (`none`/`.error` is the raised exception); in particular `Decimal`
  division by zero raises `DivisionByZero` in Python, so the embedded
  division `decDiv` returns `none` for a zero divisor.
-/

namespace PortfolioSuite

/-- Transaction kind, `Portfolio.TRANSACTION_TYPES` in `stocks/models.py`. -/
inductive TxType where
  | buy
  | sell
deriving DecidableEq, BEq, Repr

/-- One row of the `Portfolio` model (`stocks/models.py`): a single buy/sell
record of the append-only ledger.  `user` is the owner's id. -/
structure Transaction where
  user : Nat
  portfolio_name : String
  symbol : String
  transaction_type : TxType
  quantity : Rat
  price_per_share : Rat
  transaction_date : Nat
deriving DecidableEq, Repr

/-- One row of the `StockPrice` model (`stocks/models.py`), reduced to the
fields the analytics code reads. -/
structure PricePt where
  symbol : String
  date : Nat
  close_price : Rat
deriving DecidableEq, Repr

/-- One element of the list returned by
`PortfolioAnalytics.get_stock_positions` (`stocks/services.py`). -/
structure Position where
  symbol : String
  quantity : Rat
  avg_cost : Rat
  total_cost : Rat
deriving DecidableEq, Repr

/-- The distinct symbols having transactions under a portfolio name:
`Portfolio.objects.filter(portfolio_name=...).values('stock__symbol', ...)
.distinct()` in `get_stock_positions`. -/
def symbolsOf (portfolio_name : String) (db : List Transaction) : List String :=
  ((db.filter (fun t => t.portfolio_name == portfolio_name)).map (·.symbol)).dedup

/-- Aggregate `Sum('quantity')` over a queryset slice. -/
def sumQty (l : List Transaction) : Rat :=
  (l.map (·.quantity)).sum

/-- Aggregate `Sum(F('quantity') * F('price_per_share'))` over a queryset
slice. -/
def sumVal (l : List Transaction) : Rat :=
  (l.map (fun t => t.quantity * t.price_per_share)).sum

/-- Embedding of `PortfolioAnalytics.get_stock_positions`
(`stocks/services.py`, lines 82-131).  For each distinct symbol of the
named portfolio it aggregates total bought and total sold quantity/value
(filtering by `portfolio_name` only — the query has no user filter), keeps
the symbol when `net_quantity > 0`, and reports
`avg_cost = net_value / net_quantity`. -/
def get_stock_positions (portfolio_name : String) (db : List Transaction) :
    List Position :=
  (symbolsOf portfolio_name db).filterMap (fun sym =>
    let bought := db.filter (fun t =>
      t.symbol == sym && t.transaction_type == TxType.buy &&
        t.portfolio_name == portfolio_name)
    let sold := db.filter (fun t =>
      t.symbol == sym && t.transaction_type == TxType.sell &&
        t.portfolio_name == portfolio_name)
    let net_quantity := sumQty bought - sumQty sold
    let net_value := sumVal bought - sumVal sold
    if 0 < net_quantity then
      some ⟨sym, net_quantity,
        if 0 < net_quantity then net_value / net_quantity else 0,
        net_value⟩
    else none)

/-- Python `Decimal` division: raises `DivisionByZero` on a zero divisor,
modelled as `none`. -/
def decDiv (a b : Rat) : Option Rat :=
  if b = 0 then none else some (a / b)

/-- Embedding of the point-performance expression
`((close_price - avg_cost) / avg_cost) * 100` as written at
`stocks/services.py:192` and `stocks/views.py:956`.  The source has no
guard for a zero `avg_cost`; a zero cost basis therefore raises
(`none` here). -/
def performance_pct (avg_cost close_price : Rat) : Option Rat :=
  (decDiv (close_price - avg_cost) avg_cost).map (· * 100)

/-! ### Date alignment (`stocks/views.py`) -/

/-- Continuation of the carry-forward scan once at least one observation at
or before the target date has been seen: keep replacing the held value while
`stock_date <= date`, stop at the first later observation (the `else: break`
of the Python loop). -/
def scanLastGo {α : Type} (v : α) : List (Nat × α) → Nat → α
  | [], _ => v
  | (sd, w) :: rest, d => if sd ≤ d then scanLastGo w rest d else v

/-- Embedding of the inner alignment loop of
`_calculate_historical_stock_prices` (`stocks/views.py`, lines 501-514) and
of the identical loops in `_calculate_performance_since_inception`
(lines 979-992 and 1016-1026): walk the symbol's `(date, value)` pairs in
stored order, remember the value of every pair with `stock_date <= date`,
and stop at the first pair beyond `date`; `none` when no pair qualifies. -/
def scanLast {α : Type} : List (Nat × α) → Nat → Option α
  | [], _ => none
  | (sd, v) :: rest, d => if sd ≤ d then some (scanLastGo v rest d) else none

/-- Embedding of `sorted(all_dates)` where `all_dates` is the Python set
union of every symbol's observed dates: deduplicate, then sort ascending. -/
def unionDates (lists : List (List Nat)) : List Nat :=
  List.insertionSort (· ≤ ·) lists.flatten.dedup

/-- Date order on price rows, the key of `order_by('date')`. -/
def priceLe (a b : PricePt) : Prop := a.date ≤ b.date

instance : DecidableRel priceLe := fun a b => Nat.decLe a.date b.date

/-- Embedding of the queryset
`StockPrice.objects.filter(stock__symbol=..., date__gte=..., date__lte=...)
.order_by('date')`. -/
def queryPrices (sym : String) (startD endD : Nat) (db : List PricePt) :
    List PricePt :=
  List.insertionSort priceLe
    (db.filter (fun p => p.symbol == sym && startD ≤ p.date && p.date ≤ endD))

/-- Per-symbol price series as collected by
`_calculate_historical_stock_prices` into `stock_prices[symbol]`
(`stocks/views.py`, lines 483-487): parallel date and value lists. -/
structure SymbolSeries where
  symbol : String
  dates : List Nat
  values : List Rat
deriving DecidableEq, Repr

/-- The unified timeline of the alignment step: sorted union of all
observed dates. -/
def alignTimeline (series : List SymbolSeries) : List Nat :=
  unionDates (series.map (·.dates))

/-- One symbol's aligned value list over a timeline: carry-forward value,
`None` where the symbol has no observation at or before the date
(`stocks/views.py`, lines 499-514). -/
def alignValues (s : SymbolSeries) (timeline : List Nat) : List (Option Rat) :=
  timeline.map (fun d => scanLast (s.dates.zip s.values) d)

/-- Result of one of the chart-data computations: either the function's
hardcoded sample payload (`_get_sample_chart_data`, whose random content is
modelled opaquely by its arguments) or real labels/datasets. -/
inductive ChartResult where
  | sample (period chart_type : String)
  | real (labels : List Nat) (datasets : List (String × List (Option Rat)))
  | realValues (labels : List Nat) (values : List Rat)
deriving DecidableEq, Repr

/-- The per-position series collection step of
`_calculate_historical_stock_prices` (`stocks/views.py`, lines 453-487):
symbols whose range query is empty contribute no dataset and no dates. -/
def historicalSeries (positions : List Position) (startD endD : Nat)
    (pricedb : List PricePt) : List SymbolSeries :=
  positions.filterMap (fun pos =>
    let prices := queryPrices pos.symbol startD endD pricedb
    if prices.isEmpty then none
    else some ⟨pos.symbol, prices.map (·.date), prices.map (·.close_price)⟩)

/-- Embedding of `_calculate_historical_stock_prices`
(`stocks/views.py`, lines 438-543): collect each symbol's in-range prices,
return the sample payload when no dates/datasets exist (lines 489-490),
otherwise align every dataset over the sorted union of dates. -/
def calculate_historical_stock_prices (positions : List Position)
    (startD endD : Nat) (period : String) (pricedb : List PricePt) :
    ChartResult :=
  let series := historicalSeries positions startD endD pricedb
  let all_dates := alignTimeline series
  if all_dates.isEmpty || series.isEmpty then
    ChartResult.sample period "historical"
  else
    ChartResult.real all_dates
      (series.map (fun s => (s.symbol, alignValues s all_dates)))

/-- Dictionary lookup `stock_prices[symbol][date]` built from a
date-unique queryset. -/
def lookupDate (ps : List PricePt) (d : Nat) : Option Rat :=
  ((ps.filter (fun p => p.date == d)).head?).map (·.close_price)

/-- Embedding of `_calculate_portfolio_performance`
(`stocks/views.py`, lines 379-435): sum `quantity * price` over positions
having a price at each union date, keep positive daily values, and fall
back to the sample payload when there are no dates (lines 396-397) or
fewer than two kept points (lines 429-430). -/
def calculate_portfolio_performance (positions : List Position)
    (startD endD : Nat) (period : String) (pricedb : List PricePt) :
    ChartResult :=
  let entries := positions.map (fun pos =>
    (pos, queryPrices pos.symbol startD endD pricedb))
  let all_dates := unionDates (entries.map (fun e => e.2.map (·.date)))
  if all_dates.isEmpty then ChartResult.sample period "portfolio"
  else
    let pts := all_dates.filterMap (fun d =>
      let daily : Rat := (entries.map (fun e =>
        match lookupDate e.2 d with
        | some p => e.1.quantity * p
        | none => 0)).sum
      if 0 < daily then some (d, daily) else none)
    if pts.length < 2 then ChartResult.sample period "portfolio"
    else ChartResult.realValues (pts.map (·.1)) (pts.map (·.2))

/-! ### Performance since inception (`stocks/views.py`, lines 893-1054) -/

/-- One entry of the `stock_data` dictionary built by
`_calculate_performance_since_inception` (lines 963-967): observed dates
(all at or after the symbol's first purchase), per-date performance
percentages, and the weight `float(position['total_cost'])`. -/
structure StockSeries where
  symbol : String
  dates : List Nat
  performance : List Rat
  weight : Rat
deriving DecidableEq, Repr

/-- One symbol's aligned dataset (lines 977-992): over the full unified
timeline, carry the last performance value forward and use `0` where the
symbol has no observation at or before the date (`aligned_performance
.append(0)`, line 992). -/
def alignedPerformance (s : StockSeries) (timeline : List Nat) : List Rat :=
  timeline.map (fun d => (scanLast (s.dates.zip s.performance) d).getD 0)

/-- The weighted portfolio average at one date (lines 1011-1032): fold
over the stocks, accumulating `performance * weight` and `weight` for the
stocks with a carried-forward value at the date, then divide, or `0` when
no weight accumulated. -/
def portfolioAverageAt (stocks : List StockSeries) (d : Nat) : Rat :=
  let acc := stocks.foldl (fun (acc : Rat × Rat) s =>
    match scanLast (s.dates.zip s.performance) d with
    | some perf => (acc.1 + perf * s.weight, acc.2 + s.weight)
    | none => acc) (0, 0)
  if 0 < acc.2 then acc.1 / acc.2 else 0

/-- Specification-side formulation (from the spec's words, for comparison
with the fold in `portfolioAverageAt`): the stocks having a carried-forward
value at a date, as (performance, weight) pairs — the collection the
spec's weighted-average formula ranges over. -/
def withDataAt (stocks : List StockSeries) (d : Nat) : List (Rat × Rat) :=
  stocks.filterMap (fun s =>
    (scanLast (s.dates.zip s.performance) d).map (fun p => (p, s.weight)))

/-- Result of `_calculate_performance_since_inception`: sample payload
(line 970) or labels, per-symbol aligned datasets and the portfolio
average series. -/
inductive PerfResult where
  | sample
  | real (labels : List Nat) (datasets : List (String × List Rat))
      (portfolioAvg : List Rat)
deriving DecidableEq, Repr

/-- Embedding of the aggregation half of
`_calculate_performance_since_inception` (lines 969-1054), starting from
the built `stock_data`: sample payload when no dates were collected,
otherwise aligned per-symbol datasets plus the weighted average series. -/
def calc_perf_core (stocks : List StockSeries) : PerfResult :=
  let all_dates := unionDates (stocks.map (·.dates))
  if all_dates.isEmpty then PerfResult.sample
  else
    PerfResult.real all_dates
      (stocks.map (fun s => (s.symbol, alignedPerformance s all_dates)))
      (all_dates.map (fun d => portfolioAverageAt stocks d))

/-- Python exceptions relevant to the embedded code. -/
inductive PyErr where
  | typeError
  | valueError
  | divisionByZero
deriving DecidableEq, Repr

/-- Embedding of the `stock_data` construction for one position in
`_calculate_performance_since_inception` (`stocks/views.py`, lines
911-967): first purchase date via `Min('transaction_date')` over the
portfolio's BUY rows for the symbol, prices from that date on (the price
table is taken as its post-fetch snapshot; the `prices.count() < 5`
Yahoo-refetch only refreshes that snapshot), performance per price via the
unguarded division of line 956, and weight `position['total_cost']`.
`none` models the two `continue` branches (no purchase / no prices). -/
def stockSeriesOf (portfolio_name : String) (txdb : List Transaction)
    (pricedb : List PricePt) (pos : Position) :
    Except PyErr (Option StockSeries) :=
  let buys := txdb.filter (fun t =>
    t.symbol == pos.symbol && t.portfolio_name == portfolio_name &&
      t.transaction_type == TxType.buy)
  match (buys.map (·.transaction_date)).min? with
  | none => Except.ok none
  | some fp =>
    let prices := (pricedb.filter (fun p =>
      p.symbol == pos.symbol && fp ≤ p.date)).insertionSort priceLe
    if prices.isEmpty then Except.ok none
    else do
      let perfs ← prices.mapM (fun p =>
        match performance_pct pos.avg_cost p.close_price with
        | some r => Except.ok r
        | none => Except.error PyErr.divisionByZero)
      Except.ok (some ⟨pos.symbol, prices.map (·.date), perfs, pos.total_cost⟩)

/-- Embedding of `_calculate_performance_since_inception`
(`stocks/views.py`, lines 893-1054): build `stock_data` for every
position, then run the aggregation half `calc_perf_core`. -/
def calculate_performance_since_inception (positions : List Position)
    (portfolio_name : String) (txdb : List Transaction)
    (pricedb : List PricePt) : Except PyErr PerfResult := do
  let opts ← positions.mapM (stockSeriesOf portfolio_name txdb pricedb)
  Except.ok (calc_perf_core opts.reduceOption)

/-! ### The three chart views (`stocks/views.py`) -/

/-- Call of the static method `PortfolioAnalytics.get_stock_positions`
with an optional first positional argument and an optional second one.
The method signature (`stocks/services.py:83`) declares the single
parameter `portfolio_name='My Investment Portfolio'`, so passing a second
positional argument raises `TypeError`. -/
def invoke_get_stock_positions (portfolioArg : Option String)
    (extraArg : Option Nat) (db : List Transaction) :
    Except PyErr (List Position) :=
  match extraArg with
  | some _ => Except.error PyErr.typeError
  | none =>
    Except.ok (get_stock_positions
      (portfolioArg.getD "My Investment Portfolio") db)

/-- An incoming HTTP request as the three chart views read it: the
authenticated user's id, the session's portfolio selection and the GET
parameters. -/
structure Request where
  user : Nat
  sessionPortfolio : Option String
  period : String
  chartType : String
  symbol : Option String
deriving DecidableEq, Repr

/-- JSON responses of the three chart views.  The sample constructors
stand for the hardcoded/random sample payloads substituted inside the
views' `except` branches; `intradayPath` stands for the network-backed
1D intraday path (external API, modelled opaquely). -/
inductive ViewResponse where
  | sampleChart (period chart_type : String) (symbol : Option String)
  | intradayPath (chart_type : String)
  | chart (r : ChartResult)
  | emptyInception
  | sampleInception
  | inception (r : PerfResult)
  | emptySectors
  | sampleSectors
  | sectors (labels : List String) (values percentages : List Rat)
      (total : Rat)
deriving DecidableEq, Repr

/-- Period-to-days mapping of `chart_data` (`stocks/views.py`,
lines 352-361). -/
def periodDays (period : String) : Nat :=
  if period == "1W" then 7
  else if period == "1M" then 30
  else if period == "6M" then 180
  else if period == "1Y" then 365
  else 7

/-- Embedding of `_calculate_single_stock_price` (`stocks/views.py`,
lines 546-596). -/
def calculate_single_stock_price (sym : String) (startD endD : Nat)
    (period : String) (pricedb : List PricePt) : ChartResult :=
  let prices := queryPrices sym startD endD pricedb
  if prices.isEmpty then ChartResult.sample period "single"
  else if prices.length < 2 then ChartResult.sample period "single"
  else ChartResult.realValues (prices.map (·.date)) (prices.map (·.close_price))

/-- Embedding of the view `chart_data` (`stocks/views.py`, lines 322-376).
The whole `try` body starts by calling `get_stock_positions` with two
positional arguments (line 334); any raised exception is answered with the
sample payload (lines 374-376). -/
def chart_data (req : Request) (today : Nat) (txdb : List Transaction)
    (pricedb : List PricePt) : ViewResponse :=
  let current := req.sessionPortfolio.getD "My Investment Portfolio"
  match invoke_get_stock_positions (some current) (some req.user) txdb with
  | Except.error _ =>
    ViewResponse.sampleChart req.period req.chartType req.symbol
  | Except.ok positions =>
    if positions.isEmpty then
      ViewResponse.sampleChart req.period req.chartType req.symbol
    else if req.period == "1D" then ViewResponse.intradayPath req.chartType
    else
      let endD := today
      let startD := today - periodDays req.period
      if req.chartType == "single" && req.symbol.isSome then
        ViewResponse.chart (calculate_single_stock_price
          (req.symbol.getD "") startD endD req.period pricedb)
      else if req.chartType == "historical" then
        ViewResponse.chart (calculate_historical_stock_prices positions
          startD endD req.period pricedb)
      else
        ViewResponse.chart (calculate_portfolio_performance positions
          startD endD req.period pricedb)

/-- Embedding of the view `performance_since_inception_data`
(`stocks/views.py`, lines 870-890): same two-positional-argument call at
line 878; exceptions are answered with the sample inception payload. -/
def performance_since_inception_data (req : Request)
    (txdb : List Transaction) (pricedb : List PricePt) : ViewResponse :=
  let current := req.sessionPortfolio.getD "My Investment Portfolio"
  match invoke_get_stock_positions (some current) (some req.user) txdb with
  | Except.error _ => ViewResponse.sampleInception
  | Except.ok positions =>
    if positions.isEmpty then ViewResponse.emptyInception
    else
      match calculate_performance_since_inception positions current txdb
          pricedb with
      | Except.error _ => ViewResponse.sampleInception
      | Except.ok r => ViewResponse.inception r

/-! ### Sector allocation (`stocks/views.py`, lines 1195-1312) -/

/-- The hardcoded `SECTOR_MAPPING` table (`stocks/views.py`,
lines 1210-1256). -/
def SECTOR_MAPPING : List (String × String) :=
  [("AAPL", "Technology"), ("MSFT", "Technology"), ("CRM", "Technology"),
   ("ORCL", "Technology"), ("ADBE", "Technology"), ("INTC", "Technology"),
   ("AMD", "Technology"), ("NVDA", "Technology"), ("IBM", "Technology"),
   ("NOW", "Technology"),
   ("GOOGL", "Communication Services"), ("GOOG", "Communication Services"),
   ("META", "Communication Services"), ("NFLX", "Communication Services"),
   ("DIS", "Communication Services"), ("T", "Communication Services"),
   ("VZ", "Communication Services"), ("CMCSA", "Communication Services"),
   ("AMZN", "Consumer Discretionary"), ("TSLA", "Consumer Discretionary"),
   ("HD", "Consumer Discretionary"), ("NKE", "Consumer Discretionary"),
   ("LOW", "Consumer Discretionary"), ("SBUX", "Consumer Discretionary"),
   ("JNJ", "Healthcare"), ("PFE", "Healthcare"), ("UNH", "Healthcare"),
   ("ABBV", "Healthcare"), ("TMO", "Healthcare"), ("DHR", "Healthcare"),
   ("BMY", "Healthcare"), ("MRK", "Healthcare"),
   ("JPM", "Financials"), ("BAC", "Financials"), ("WFC", "Financials"),
   ("GS", "Financials"), ("MS", "Financials"), ("AXP", "Financials"),
   ("BLK", "Financials"), ("C", "Financials"), ("BRK-A", "Financials"),
   ("BRK-B", "Financials"), ("BRK.A", "Financials"), ("BRK.B", "Financials"),
   ("V", "Financials"), ("MA", "Financials"), ("PYPL", "Financials"),
   ("COF", "Financials"),
   ("PG", "Consumer Staples"), ("KO", "Consumer Staples"),
   ("PEP", "Consumer Staples"), ("WMT", "Consumer Staples"),
   ("COST", "Consumer Staples"), ("CL", "Consumer Staples"),
   ("MMM", "Industrials"), ("BA", "Industrials"), ("CAT", "Industrials"),
   ("GE", "Industrials"), ("DE", "Industrials"), ("HON", "Industrials"),
   ("UPS", "Industrials"), ("RTX", "Industrials"), ("LMT", "Industrials"),
   ("NOC", "Industrials"), ("FDX", "Industrials"),
   ("XOM", "Energy"), ("CVX", "Energy"), ("COP", "Energy"),
   ("SLB", "Energy"), ("EOG", "Energy"),
   ("NEE", "Utilities"), ("DUK", "Utilities"), ("SO", "Utilities"),
   ("D", "Utilities"),
   ("AMT", "Real Estate"), ("PLD", "Real Estate"), ("O", "Real Estate"),
   ("SPG", "Real Estate"), ("EXR", "Real Estate"), ("PSA", "Real Estate"),
   ("WELL", "Real Estate"), ("EQIX", "Real Estate"),
   ("LIN", "Materials"), ("APD", "Materials"), ("SHW", "Materials"),
   ("FCX", "Materials")]

/-- `SECTOR_MAPPING.get(symbol, 'Other')` (`stocks/views.py:1265`). -/
def sectorOf (sym : String) : String :=
  (SECTOR_MAPPING.lookup sym).getD "Other"

/-- Descending date comparison, the key of `order_by('-date')`. -/
def priceGe (a b : PricePt) : Prop := b.date ≤ a.date

instance : DecidableRel priceGe := fun a b => Nat.decLe b.date a.date

/-- `StockPrice.objects.filter(stock__symbol=symbol).order_by('-date')
.first()`, reduced to the close price the caller reads. -/
def latestPrice (sym : String) (db : List PricePt) : Option Rat :=
  ((List.insertionSort priceGe (db.filter (fun p => p.symbol == sym))).head?).map
    (·.close_price)

/-- Market value of one position (`stocks/views.py`, lines 1267-1281):
`quantity * latest close` when a price row exists, else the stored
`total_cost` fallback. -/
def positionValue (pos : Position) (pricedb : List PricePt) : Rat :=
  match latestPrice pos.symbol pricedb with
  | some p => pos.quantity * p
  | none => pos.total_cost

/-- Python dict accumulation `sector_values[sector] =
sector_values.get(sector, 0) + value`, insertion-ordered. -/
def addSector (acc : List (String × Rat)) (s : String) (v : Rat) :
    List (String × Rat) :=
  match acc with
  | [] => [(s, v)]
  | (s', v') :: rest =>
    if s' == s then (s', v' + v) :: rest else (s', v') :: addSector rest s v

/-- The `sector_values` dictionary after the accumulation loop
(`stocks/views.py`, lines 1259-1284). -/
def sectorValuesOf (positions : List Position) (pricedb : List PricePt) :
    List (String × Rat) :=
  positions.foldl (fun acc pos =>
    addSector acc (sectorOf pos.symbol) (positionValue pos pricedb)) []

/-- The running `total_portfolio_value` of the same loop. -/
def totalPortfolioValue (positions : List Position)
    (pricedb : List PricePt) : Rat :=
  (positions.map (fun pos => positionValue pos pricedb)).sum

/-- Payload of `sector_allocation_data`'s success branch. -/
structure AllocResult where
  labels : List String
  values : List Rat
  percentages : List Rat
  total_value : Rat
deriving DecidableEq, Repr

/-- Descending-by-value comparison used for
`sorted(zip(...), key=lambda x: x[1], reverse=True)`. -/
def allocGe (a b : (String × Rat) × Rat) : Prop := b.1.2 ≤ a.1.2

instance : DecidableRel allocGe := fun a b => inferInstanceAs (Decidable (b.1.2 ≤ a.1.2))

/-- Embedding of the allocation computation of `sector_allocation_data`
(`stocks/views.py`, lines 1258-1303): accumulate per-sector market values,
and when the total is positive emit labels, values and
`value / total * 100` percentages sorted descending by value; otherwise
the empty payload. -/
def sectorAllocation (positions : List Position) (pricedb : List PricePt) :
    AllocResult :=
  let sv := sectorValuesOf positions pricedb
  let total := totalPortfolioValue positions pricedb
  if 0 < total then
    let triples := (sv.map (fun e => (e, e.2 / total * 100))).insertionSort allocGe
    ⟨triples.map (·.1.1), triples.map (·.1.2), triples.map (·.2), total⟩
  else ⟨[], [], [], 0⟩

/-- Embedding of the view `sector_allocation_data` (`stocks/views.py`,
lines 1195-1312): the two-positional-argument call at line 1204 inside the
`try`; any exception is answered with the hardcoded sample payload. -/
def sector_allocation_data (req : Request) (txdb : List Transaction)
    (pricedb : List PricePt) : ViewResponse :=
  let current := req.sessionPortfolio.getD "My Investment Portfolio"
  match invoke_get_stock_positions (some current) (some req.user) txdb with
  | Except.error _ => ViewResponse.sampleSectors
  | Except.ok positions =>
    if positions.isEmpty then ViewResponse.emptySectors
    else
      let r := sectorAllocation positions pricedb
      ViewResponse.sectors r.labels r.values r.percentages r.total_value

/-! ### Calendar projection (`stocks/services.py`) -/

/-- Gregorian calendar date as `datetime.date` holds it. -/
structure PyDate where
  year : Nat
  month : Nat
  day : Nat
deriving DecidableEq, Repr

/-- Gregorian leap-year rule. -/
def isLeap (y : Nat) : Bool :=
  (y % 4 == 0 && y % 100 != 0) || y % 400 == 0

/-- Number of days of a month. -/
def daysInMonth (y m : Nat) : Nat :=
  if m == 2 then (if isLeap y then 29 else 28)
  else if m == 4 || m == 6 || m == 9 || m == 11 then 30
  else 31

/-- The `datetime(year, month, day)` constructor: `none` models the
`ValueError` raised on an invalid calendar date. -/
def mkDate (y m d : Nat) : Option PyDate :=
  if 1 ≤ m && m ≤ 12 && 1 ≤ d && d ≤ daysInMonth y m then
    some ⟨y, m, d⟩
  else none

/-- Lexicographic `<=` on dates, Python's date comparison. -/
def dateLeB (a b : PyDate) : Bool :=
  a.year < b.year ||
    (a.year == b.year &&
      (a.month < b.month || (a.month == b.month && a.day ≤ b.day)))

/-- Embedding of the earnings scan of `get_upcoming_earnings`
(`stocks/services.py`, lines 294-309): for each `(month, day)` pair try
`datetime(year, month, day)`, and on `ValueError` retry with
`min(day, 28)`; the first candidate at or after `today` wins.  A
`ValueError` escaping the retry (impossible for months 1-12) propagates. -/
def earnScan (pairs : List (Nat × Nat)) (y : Nat) (today : PyDate) :
    Except PyErr (Option PyDate) :=
  match pairs with
  | [] => Except.ok none
  | (m, d) :: rest =>
    match mkDate y m d with
    | some dt =>
      if dateLeB today dt then Except.ok (some dt) else earnScan rest y today
    | none =>
      match mkDate y m (min d 28) with
      | some dt =>
        if dateLeB today dt then Except.ok (some dt) else earnScan rest y today
      | none => Except.error PyErr.valueError

/-- Embedding of the next-earnings-date projection for one schedule
(`stocks/services.py`, lines 292-316): scan the current year, else fall
back to the schedule's first pair in the next year, again clamping a
`ValueError` to day 28 (line 316). -/
def nextEarningsDate (pairs : List (Nat × Nat)) (today : PyDate) :
    Except PyErr PyDate := do
  match ← earnScan pairs today.year today with
  | some dt => Except.ok dt
  | none =>
    match pairs with
    | [] => Except.error PyErr.valueError
    | (m0, d0) :: _ =>
      match mkDate (today.year + 1) m0 d0 with
      | some dt => Except.ok dt
      | none =>
        match mkDate (today.year + 1) m0 28 with
        | some dt => Except.ok dt
        | none => Except.error PyErr.valueError

/-- Embedding of the quarterly dividend scan of `get_upcoming_dividends`
(`stocks/services.py`, lines 526-535): for each scheduled month try
`datetime(current_year, month, ex_date_day)`; a `ValueError` is answered
with `continue`, silently skipping that candidate. -/
def divScan (months : List Nat) (exDay y : Nat) (today : PyDate) :
    Option PyDate :=
  match months with
  | [] => none
  | m :: rest =>
    match mkDate y m exDay with
    | some dt => if dateLeB today dt then some dt else divScan rest exDay y today
    | none => divScan rest exDay y today

/-- Embedding of the quarterly next-dividend-date projection
(`stocks/services.py`, lines 524-542): scan the current year, else try the
first scheduled month next year, where a `ValueError` again hits
`continue` and leaves the position without any projected dividend
(`none`). -/
def nextDividendDate (months : List Nat) (exDay : Nat) (today : PyDate) :
    Option PyDate :=
  match divScan months exDay today.year today with
  | some dt => some dt
  | none =>
    match months with
    | [] => none
    | m0 :: _ => mkDate (today.year + 1) m0 exDay

/-! ### Concrete-ledger vocabulary used by the theorems below -/

/-- The default portfolio name of the application. -/
def pname : String := "My Investment Portfolio"

/-- A BUY ledger row for symbol `AAPL` in the default portfolio. -/
def buyTx (u : Nat) (q p : Rat) (d : Nat) : Transaction :=
  ⟨u, pname, "AAPL", TxType.buy, q, p, d⟩

/-- A SELL ledger row for symbol `AAPL` in the default portfolio. -/
def sellTx (u : Nat) (q p : Rat) (d : Nat) : Transaction :=
  ⟨u, pname, "AAPL", TxType.sell, q, p, d⟩

/-! ### Helper lemmas -/

/-- The carry-forward continuation returns the value of the last
observation at or before `d`, with default `v`, for pairwise-sorted
observation lists. -/
theorem scanLastGo_filter {α : Type} (v : α) (ps : List (Nat × α)) (d : Nat)
    (hps : List.Pairwise (fun a b => a.1 ≤ b.1) ps) :
    scanLastGo v ps d =
      (((ps.filter (fun q => q.1 ≤ d)).getLast?).map Prod.snd).getD v := by
  induction ps generalizing v with
  | nil => simp [scanLastGo]
  | cons p rest ih =>
    obtain ⟨sd, w⟩ := p
    rw [List.pairwise_cons] at hps
    by_cases h : sd ≤ d
    · rw [scanLastGo, if_pos h, ih w hps.2, List.filter_cons,
        if_pos (by simpa using h)]
      cases hrest : rest.filter (fun q => q.1 ≤ d) with
      | nil => simp
      | cons r rs =>
        obtain ⟨x, hx⟩ := Option.isSome_iff_exists.mp
          (List.getLast?_isSome.mpr (List.cons_ne_nil r rs))
        simp [hx]
    · rw [scanLastGo, if_neg h, List.filter_cons, if_neg (by simpa using h)]
      have : rest.filter (fun q => q.1 ≤ d) = [] := by
        rw [List.filter_eq_nil_iff]
        intro q hq
        simp only [decide_eq_true_eq]
        intro hqd
        exact h (le_trans (hps.1 q hq) hqd)
      simp [this]

/-- For a pairwise-sorted observation list, the carry-forward scan yields
exactly the value of the most recent observation at or before `d` (the
last element of the at-or-before filter), and `none` when there is no such
observation. -/
theorem scanLast_filter {α : Type} (ps : List (Nat × α)) (d : Nat)
    (hps : List.Pairwise (fun a b => a.1 ≤ b.1) ps) :
    scanLast ps d = ((ps.filter (fun q => q.1 ≤ d)).getLast?).map Prod.snd := by
  cases ps with
  | nil => rfl
  | cons p rest =>
    obtain ⟨sd, w⟩ := p
    rw [List.pairwise_cons] at hps
    by_cases h : sd ≤ d
    · rw [scanLast, if_pos h, scanLastGo_filter w rest d hps.2,
        List.filter_cons, if_pos (by simpa using h)]
      cases hrest : rest.filter (fun q => q.1 ≤ d) with
      | nil => simp
      | cons r rs =>
        obtain ⟨x, hx⟩ := Option.isSome_iff_exists.mp
          (List.getLast?_isSome.mpr (List.cons_ne_nil r rs))
        simp [hx]
    · rw [scanLast, if_neg h, List.filter_cons, if_neg (by simpa using h)]
      have : rest.filter (fun q => q.1 ≤ d) = [] := by
        rw [List.filter_eq_nil_iff]
        intro q hq
        simp only [decide_eq_true_eq]
        intro hqd
        exact h (le_trans (hps.1 q hq) hqd)
      simp [this]

/-- When every observation is strictly later than `d`, the scan finds
nothing. -/
theorem scanLast_none {α : Type} (ps : List (Nat × α)) (d : Nat)
    (h : ∀ q ∈ ps, d < q.1) : scanLast ps d = none := by
  cases ps with
  | nil => rfl
  | cons p rest =>
    obtain ⟨sd, w⟩ := p
    rw [scanLast, if_neg]
    exact not_le_of_lt (h (sd, w) (List.mem_cons_self _ _))

/-- The unified timeline is strictly ascending. -/
theorem unionDates_sorted (lists : List (List Nat)) :
    List.Sorted (· < ·) (unionDates lists) := by
  apply List.Sorted.lt_of_le
  · exact List.sorted_insertionSort _ _
  · exact (List.perm_insertionSort _ _).symm.nodup (List.nodup_dedup _)

/-- The unified timeline holds exactly the dates observed in some input
list. -/
theorem mem_unionDates (lists : List (List Nat)) (d : Nat) :
    d ∈ unionDates lists ↔ ∃ l ∈ lists, d ∈ l := by
  rw [unionDates, (List.perm_insertionSort _ _).mem_iff, List.mem_dedup,
    List.mem_flatten]

/-- The accumulator fold of the weighted-average loop computes the sums of
`performance * weight` and of `weight` over the stocks with data. -/
theorem portfolioAverage_foldl (stocks : List StockSeries) (d : Nat)
    (a0 b0 : Rat) :
    stocks.foldl (fun (acc : Rat × Rat) s =>
      match scanLast (s.dates.zip s.performance) d with
      | some perf => (acc.1 + perf * s.weight, acc.2 + s.weight)
      | none => acc) (a0, b0) =
    (a0 + ((withDataAt stocks d).map (fun q => q.1 * q.2)).sum,
     b0 + ((withDataAt stocks d).map (·.2)).sum) := by
  induction stocks generalizing a0 b0 with
  | nil => simp [withDataAt]
  | cons s rest ih =>
    rw [List.foldl_cons]
    cases hs : scanLast (s.dates.zip s.performance) d with
    | none => simp only [hs]; rw [ih]; simp [withDataAt, hs]
    | some perf =>
      simp only [hs]
      rw [ih]
      simp only [withDataAt, List.filterMap_cons, hs, Option.map_some',
        List.map_cons, List.sum_cons]
      rw [Prod.mk.injEq]
      exact ⟨by ring, by ring⟩

/-- Adding a value to a sector bucket adds it to the total of all
buckets. -/
theorem sumSnd_addSector (acc : List (String × Rat)) (s : String) (v : Rat) :
    ((addSector acc s v).map (·.2)).sum = (acc.map (·.2)).sum + v := by
  induction acc with
  | nil => simp [addSector]
  | cons e rest ih =>
    obtain ⟨s', v'⟩ := e
    by_cases h : s' == s
    · simp [addSector, h]; ring
    · simp [addSector, h, ih]; ring

/-- Accumulator-generalised form: the sector buckets total the starting
buckets plus every position's market value. -/
theorem sectorValues_sum_aux (positions : List Position)
    (pricedb : List PricePt) (acc : List (String × Rat)) :
    ((positions.foldl (fun acc pos =>
        addSector acc (sectorOf pos.symbol) (positionValue pos pricedb)) acc).map
      (·.2)).sum =
    (acc.map (·.2)).sum +
      (positions.map (fun pos => positionValue pos pricedb)).sum := by
  induction positions generalizing acc with
  | nil => simp
  | cons pos rest ih =>
    rw [List.foldl_cons, ih, sumSnd_addSector]
    simp [add_assoc]

/-- The sector buckets of `sector_allocation_data` total exactly the
running `total_portfolio_value` of the same loop. -/
theorem sectorValues_sum (positions : List Position) (pricedb : List PricePt) :
    ((sectorValuesOf positions pricedb).map (·.2)).sum =
      totalPortfolioValue positions pricedb := by
  rw [sectorValuesOf, totalPortfolioValue, sectorValues_sum_aux]
  simp

/-- Closed form of `get_stock_positions` on a one-buy-one-sell ledger of a
single symbol: net quantity is the difference of quantities, and the
residual cost is buy value minus the sell's proceeds `q2 * p2`. -/
theorem positions_buy_sell (u1 u2 : Nat) (q1 p1 q2 p2 : Rat) (h : q2 < q1) :
    get_stock_positions pname [buyTx u1 q1 p1 0, sellTx u2 q2 p2 1] =
      [⟨"AAPL", q1 - q2, (q1 * p1 - q2 * p2) / (q1 - q2), q1 * p1 - q2 * p2⟩] := by
  have hfb : ([buyTx u1 q1 p1 0, sellTx u2 q2 p2 1].filter (fun t =>
      t.symbol == "AAPL" && t.transaction_type == TxType.buy &&
        t.portfolio_name == pname)) = [buyTx u1 q1 p1 0] := rfl
  have hfs : ([buyTx u1 q1 p1 0, sellTx u2 q2 p2 1].filter (fun t =>
      t.symbol == "AAPL" && t.transaction_type == TxType.sell &&
        t.portfolio_name == pname)) = [sellTx u2 q2 p2 1] := rfl
  have hsy : symbolsOf pname [buyTx u1 q1 p1 0, sellTx u2 q2 p2 1] = ["AAPL"] := rfl
  have hq : (0:Rat) < q1 - q2 := by linarith
  simp only [get_stock_positions]
  rw [hsy]
  simp only [List.filterMap_cons, List.filterMap_nil, hfb, hfs]
  simp only [sumQty, sumVal, buyTx, sellTx, List.map_cons,
    List.map_nil, List.sum_cons, List.sum_nil, add_zero]
  rw [if_pos hq, if_pos hq]

/-- Closed form of `get_stock_positions` on a single-buy ledger. -/
theorem positions_one_buy (u : Nat) (q p : Rat) (h : 0 < q) :
    get_stock_positions pname [buyTx u q p 0] =
      [⟨"AAPL", q, (q * p) / q, q * p⟩] := by
  have hfb : ([buyTx u q p 0].filter (fun t =>
      t.symbol == "AAPL" && t.transaction_type == TxType.buy &&
        t.portfolio_name == pname)) = [buyTx u q p 0] := rfl
  have hfs : ([buyTx u q p 0].filter (fun t =>
      t.symbol == "AAPL" && t.transaction_type == TxType.sell &&
        t.portfolio_name == pname)) = [] := rfl
  have hsy : symbolsOf pname [buyTx u q p 0] = ["AAPL"] := rfl
  simp only [get_stock_positions]
  rw [hsy]
  simp only [List.filterMap_cons, List.filterMap_nil, hfb, hfs]
  simp only [sumQty, sumVal, buyTx, List.map_cons, List.map_nil,
    List.sum_cons, List.sum_nil, add_zero, sub_zero]
  rw [if_pos h, if_pos h]

/-- Closed form of `get_stock_positions` on a two-buy ledger of the same
symbol (possibly by different users: the query does not filter on the
user). -/
theorem positions_two_buys (u1 u2 : Nat) (q1 p1 q2 p2 : Rat)
    (h : 0 < q1 + q2) :
    get_stock_positions pname [buyTx u1 q1 p1 0, buyTx u2 q2 p2 1] =
      [⟨"AAPL", q1 + q2, (q1 * p1 + q2 * p2) / (q1 + q2), q1 * p1 + q2 * p2⟩] := by
  have hfb : ([buyTx u1 q1 p1 0, buyTx u2 q2 p2 1].filter (fun t =>
      t.symbol == "AAPL" && t.transaction_type == TxType.buy &&
        t.portfolio_name == pname)) = [buyTx u1 q1 p1 0, buyTx u2 q2 p2 1] := rfl
  have hfs : ([buyTx u1 q1 p1 0, buyTx u2 q2 p2 1].filter (fun t =>
      t.symbol == "AAPL" && t.transaction_type == TxType.sell &&
        t.portfolio_name == pname)) = [] := rfl
  have hsy : symbolsOf pname [buyTx u1 q1 p1 0, buyTx u2 q2 p2 1] = ["AAPL"] := rfl
  simp only [get_stock_positions]
  rw [hsy]
  simp only [List.filterMap_cons, List.filterMap_nil, hfb, hfs]
  simp only [sumQty, sumVal, buyTx, List.map_cons, List.map_nil,
    List.sum_cons, List.sum_nil, add_zero, sub_zero]
  rw [if_pos h, if_pos h]

/-- Every month of a year has at least 28 days. -/
theorem le_daysInMonth (y m : Nat) : 28 ≤ daysInMonth y m := by
  rw [daysInMonth]
  split_ifs <;> norm_num

/-! ### Claims -/

/-- C1, counterexample.  The claim predicts that buying 10 shares at 10
and then selling 4 leaves `avg_cost_basis = 10` for every sell price; on
the embedded `get_stock_positions`, selling the 4 shares at price 5 leaves
`avg_cost = 80 / 6 = 40 / 3 ≠ 10`, because the code subtracts the sell's
proceeds from the cost, not a proportional share of the basis. -/
theorem c1_counterexample :
    get_stock_positions pname [buyTx 1 10 10 0, sellTx 1 4 5 1] =
      [⟨"AAPL", 6, 40/3, 80⟩] ∧ (40/3 : Rat) ≠ 10 := by
  constructor
  · rw [positions_buy_sell 1 1 10 10 4 5 (by norm_num)]
    norm_num
  · norm_num

/-- C1, amended.  Processing a SELL of quantity `q2` at price `p2` reduces
the running total cost by the sale proceeds `q2 * p2` (not by a
proportional share of the prior basis), so after buying `q1` at `p1` and
selling `q2 < q1` the remaining position has `net_quantity = q1 - q2`,
`total_cost = q1*p1 - q2*p2` and `avg_cost = (q1*p1 - q2*p2)/(q1 - q2)`,
which depends on the sell price; it equals the purchase price only when
the sale happens exactly at the average cost (e.g. selling 4 of 10 bought
at 10 for 10 leaves an average of 10). -/
theorem c1_amended (u : Nat) (q1 p1 q2 p2 : Rat) (h : q2 < q1) :
    get_stock_positions pname [buyTx u q1 p1 0, sellTx u q2 p2 1] =
      [⟨"AAPL", q1 - q2, (q1 * p1 - q2 * p2) / (q1 - q2), q1 * p1 - q2 * p2⟩] :=
  positions_buy_sell u u q1 p1 q2 p2 h

/-- C1, witness: the amended statement at the concrete input 10 @ 10
bought, 4 @ 10 sold. -/
theorem c1_witness :
    (4:Rat) < 10 ∧
    get_stock_positions pname [buyTx 1 10 10 0, sellTx 1 4 10 1] =
      [⟨"AAPL", 10 - 4, (10 * 10 - 4 * 10) / (10 - 4), 10 * 10 - 4 * 10⟩] :=
  ⟨by norm_num, c1_amended 1 10 10 4 10 (by norm_num)⟩

/-- C2: for every request, ledger state and price state, the three chart
views answer with their sample payloads — the call to
`get_stock_positions` with a second positional argument raises
`TypeError` before any data-dependent branch is reached, and the
surrounding `try/except` substitutes the sample response. -/
theorem c2_views_always_sample (req : Request) (today : Nat)
    (txdb : List Transaction) (pricedb : List PricePt) :
    chart_data req today txdb pricedb =
        ViewResponse.sampleChart req.period req.chartType req.symbol ∧
    performance_since_inception_data req txdb pricedb =
        ViewResponse.sampleInception ∧
    sector_allocation_data req txdb pricedb = ViewResponse.sampleSectors :=
  ⟨rfl, rfl, rfl⟩

/-- C3, counterexample.  A held position with zero net cost is reachable
(buy 10 @ 10, then sell 5 @ 20: quantity 5 held, cost 0), and the
point-performance expression has no zero guard: at `avg_cost = 0` the
embedded `Decimal` division raises (`none`), where the claim promised the
value `0`. -/
theorem c3_counterexample :
    get_stock_positions pname [buyTx 1 10 10 0, sellTx 1 5 20 1] =
      [⟨"AAPL", 5, 0, 0⟩] ∧ performance_pct 0 17 = none := by
  constructor
  · rw [positions_buy_sell 1 1 10 10 5 20 (by norm_num)]
    norm_num
  · rfl

/-- C3, amended.  Point performance equals
`((current_price - avg_cost_basis) / avg_cost_basis) * 100` whenever
`avg_cost_basis ≠ 0`; when `avg_cost_basis = 0` the computation raises a
division error (there is no zero guard), rather than being defined as 0. -/
theorem c3_amended (avg price : Rat) :
    (avg = 0 → performance_pct avg price = none) ∧
    (avg ≠ 0 → performance_pct avg price = some ((price - avg) / avg * 100)) := by
  constructor <;> intro h <;> simp [performance_pct, decDiv, h]

/-- C3, witness: the amended statement at basis 2 and price 3. -/
theorem c3_witness :
    (2:Rat) ≠ 0 ∧ performance_pct 2 3 = some ((3 - 2) / 2 * 100) :=
  ⟨by norm_num, (c3_amended 2 3).2 (by norm_num)⟩

/-- C4, counterexample.  `get_stock_positions` filters by portfolio name
only, never by user: adding a second user's BUY of the same symbol under
the same portfolio name changes the first user's computed position from
(10 shares, avg 10, cost 100) to (20 shares, avg 15, cost 300). -/
theorem c4_counterexample :
    get_stock_positions pname [buyTx 1 10 10 0] = [⟨"AAPL", 10, 10, 100⟩] ∧
    get_stock_positions pname [buyTx 1 10 10 0, buyTx 2 10 20 1] =
      [⟨"AAPL", 20, 15, 300⟩] ∧
    ([⟨"AAPL", 10, 10, 100⟩] : List Position) ≠ [⟨"AAPL", 20, 15, 300⟩] := by
  refine ⟨?_, ?_, ?_⟩
  · rw [positions_one_buy 1 10 10 (by norm_num)]
    norm_num
  · rw [positions_two_buys 1 2 10 10 10 20 (by norm_num)]
    norm_num
  · simp only [ne_eq, List.cons.injEq, Position.mk.injEq, and_true, not_and]
    intro _
    norm_num

/-- C4, amended.  The positions computed for a portfolio name are
invariant only under transactions carrying a *different portfolio name*
(whoever their user is): appending such transactions leaves the result
unchanged.  Transactions of another user under the *same* portfolio name
do enter the computation (see the counterexample). -/
theorem c4_amended (name : String) (db extra : List Transaction)
    (h : ∀ t ∈ extra, t.portfolio_name ≠ name) :
    get_stock_positions name (db ++ extra) = get_stock_positions name db := by
  have hname : ∀ t ∈ extra, (t.portfolio_name == name) = false := fun t ht =>
    beq_eq_false_iff_ne.mpr (h t ht)
  have hextra : extra.filter (fun t => t.portfolio_name == name) = [] :=
    List.filter_eq_nil_iff.mpr (by intro t ht; simp [hname t ht])
  have hextra2 : ∀ (sym : String) (ty : TxType),
      extra.filter (fun t => t.symbol == sym &&
        t.transaction_type == ty && t.portfolio_name == name) = [] := by
    intro sym ty
    exact List.filter_eq_nil_iff.mpr (by intro t ht; simp [hname t ht])
  have h1 : (db ++ extra).filter (fun t => t.portfolio_name == name) =
      db.filter (fun t => t.portfolio_name == name) := by
    rw [List.filter_append, hextra, List.append_nil]
  have h2 : ∀ (sym : String) (ty : TxType),
      (db ++ extra).filter (fun t => t.symbol == sym &&
        t.transaction_type == ty && t.portfolio_name == name) =
      db.filter (fun t => t.symbol == sym &&
        t.transaction_type == ty && t.portfolio_name == name) := by
    intro sym ty
    rw [List.filter_append, hextra2 sym ty, List.append_nil]
  simp only [get_stock_positions, symbolsOf, h1, h2]

/-- C4, witness: appending one transaction of a differently named
portfolio leaves the computed positions unchanged. -/
theorem c4_witness :
    ("Other" : String) ≠ pname ∧
    get_stock_positions pname
        ([buyTx 1 10 10 0] ++ [⟨2, "Other", "AAPL", TxType.buy, 1, 1, 0⟩]) =
      get_stock_positions pname [buyTx 1 10 10 0] :=
  ⟨by decide, c4_amended pname [buyTx 1 10 10 0]
    [⟨2, "Other", "AAPL", TxType.buy, 1, 1, 0⟩] (by decide)⟩

/-- C5, counterexample.  With one symbol first observed at date 1 and a
second (`MSFT`-like) symbol first observed at date 2, the unified
timeline is `[1, 2]` and the second symbol's own aligned dataset is
`[0, 7]`: the pre-purchase date 1 is present and filled with `0`
(line 992, `aligned_performance.append(0)`), not omitted as the claim
states (which would give the one-element dataset `[7]`). -/
theorem c5_counterexample :
    unionDates [[1], [2]] = [1, 2] ∧
    alignedPerformance ⟨"MSFT", [2], [7], 1⟩ [1, 2] = [0, 7] ∧
    ([0, 7] : List Rat) ≠ [7] := by
  refine ⟨by decide, by decide, by decide⟩

/-- C5, amended.  A symbol's aligned dataset always spans the whole
timeline (same length), and at every timeline date strictly earlier than
all of the symbol's observed dates (in particular every date before its
first purchase) the dataset holds the filler value `0` — pre-purchase
dates are zero-filled, not omitted. -/
theorem c5_amended (s : StockSeries) (tl : List Nat) (i : Nat)
    (hi : i < tl.length)
    (hall : ∀ sd ∈ s.dates, tl.get ⟨i, hi⟩ < sd) :
    (alignedPerformance s tl).length = tl.length ∧
    (alignedPerformance s tl).get
        ⟨i, by simpa [alignedPerformance] using hi⟩ = 0 := by
  constructor
  · simp [alignedPerformance]
  · have hz : ∀ q ∈ s.dates.zip s.performance, tl.get ⟨i, hi⟩ < q.1 := by
      intro q hq
      exact hall q.1 (List.of_mem_zip hq).1
    simp only [List.get_eq_getElem] at hz
    simp only [alignedPerformance, List.get_eq_getElem, List.getElem_map]
    rw [scanLast_none _ _ hz]
    rfl

/-- C5, witness: the amended statement at the concrete two-date timeline,
evaluating the zero fill at the pre-purchase date. -/
theorem c5_witness :
    (1:Nat) < 2 ∧
    (alignedPerformance ⟨"MSFT", [2], [7], 1⟩ [1, 2]).get
        ⟨0, by simp [alignedPerformance]⟩ = 0 :=
  ⟨by norm_num,
    (c5_amended ⟨"MSFT", [2], [7], 1⟩ [1, 2] 0 (by norm_num) (by decide)).2⟩

/-- C6: for per-symbol date-sorted price sequences, the aligned output's
timeline is the strictly ascending union of all observed dates; every
symbol's aligned value at a union date is the most recent observation at
or before that date (the last element of the at-or-before filter) and
`none` when no such observation exists; and every symbol's aligned value
sequence has exactly the timeline's length. -/
theorem c6_alignment (series : List SymbolSeries)
    (hsort : ∀ s ∈ series, List.Sorted (· ≤ ·) s.dates)
    (hlen : ∀ s ∈ series, s.values.length = s.dates.length) :
    List.Sorted (· < ·) (alignTimeline series) ∧
    (∀ d, d ∈ alignTimeline series ↔ ∃ s ∈ series, d ∈ s.dates) ∧
    (∀ s ∈ series, alignValues s (alignTimeline series) =
      (alignTimeline series).map (fun d =>
        (((s.dates.zip s.values).filter (fun q => q.1 ≤ d)).getLast?).map
          Prod.snd)) ∧
    (∀ s ∈ series, (alignValues s (alignTimeline series)).length =
      (alignTimeline series).length) := by
  refine ⟨unionDates_sorted _, ?_, ?_, ?_⟩
  · intro d
    rw [alignTimeline, mem_unionDates]
    constructor
    · rintro ⟨l, hl, hdl⟩
      rw [List.mem_map] at hl
      obtain ⟨s, hs, rfl⟩ := hl
      exact ⟨s, hs, hdl⟩
    · rintro ⟨s, hs, hds⟩
      exact ⟨s.dates, List.mem_map_of_mem _ hs, hds⟩
  · intro s hs
    have hp : List.Pairwise (fun a b => a.1 ≤ b.1) (s.dates.zip s.values) := by
      have h1 := hsort s hs
      rw [← List.map_fst_zip s.dates s.values (le_of_eq (hlen s hs).symm)] at h1
      exact List.pairwise_map.mp h1
    rw [alignValues]
    exact List.map_congr_left (fun d _ => scanLast_filter _ _ hp)
  · intro s hs
    simp [alignValues]

/-- C6, witness: the spec's own alignment-determinism example — symbols
observed on the disjoint date sets `{1 ↦ 10}` and `{3 ↦ 20}` align to the
union timeline with values `[10, 10]` (carried forward) and
`[none, 20]`. -/
theorem c6_witness :
    List.Sorted (· ≤ ·) ([1] : List Nat) ∧
    alignValues ⟨"A", [1], [10]⟩
        (alignTimeline [⟨"A", [1], [10]⟩, ⟨"B", [3], [20]⟩]) =
      [some 10, some 10] ∧
    alignValues ⟨"B", [3], [20]⟩
        (alignTimeline [⟨"A", [1], [10]⟩, ⟨"B", [3], [20]⟩]) =
      [none, some 20] ∧
    (alignValues ⟨"A", [1], [10]⟩
        (alignTimeline [⟨"A", [1], [10]⟩, ⟨"B", [3], [20]⟩])).length =
      (alignTimeline [⟨"A", [1], [10]⟩, ⟨"B", [3], [20]⟩]).length :=
  ⟨by decide, by decide, by decide,
    (c6_alignment [⟨"A", [1], [10]⟩, ⟨"B", [3], [20]⟩]
      (by decide) (by decide)).2.2.2 ⟨"A", [1], [10]⟩ (by decide)⟩

/-- C7, counterexample.  The weight is the symbol's `total_cost`, and the
code lets `total_cost` go negative while the position is still held: buy
10 @ 10 then sell 5 @ 30 leaves quantity 5 and `total_cost = -50`.  At a
date where only such a symbol has data, the accumulated
`available_weight` is not `> 0`, so the code appends `0` — while the
claim's formula `sum(w*p)/sum(w)` over the symbols with data gives the
symbol's own percent (here 10, with performance 10 and weight −1). -/
theorem c7_counterexample :
    get_stock_positions pname [buyTx 1 10 10 0, sellTx 1 5 30 1] =
      [⟨"AAPL", 5, -10, -50⟩] ∧
    portfolioAverageAt [⟨"A", [1], [10], -1⟩] 1 = 0 ∧
    ((withDataAt [⟨"A", [1], [10], -1⟩] 1).map (fun q => q.1 * q.2)).sum /
      ((withDataAt [⟨"A", [1], [10], -1⟩] 1).map (·.2)).sum = 10 ∧
    (0 : Rat) ≠ 10 := by
  have hwd : withDataAt [⟨"A", [1], [10], -1⟩] 1 = [(10, -1)] := rfl
  refine ⟨?_, ?_, ?_, by norm_num⟩
  · rw [positions_buy_sell 1 1 10 10 5 30 (by norm_num)]
    norm_num
  · rw [portfolioAverageAt, portfolioAverage_foldl [⟨"A", [1], [10], -1⟩] 1 0 0,
      hwd]
    norm_num
  · rw [hwd]
    norm_num

/-- C7, amended.  At any date the portfolio-average value equals
`sum(weight * percent) / sum(weight)` taken over exactly the symbols with
a carried-forward value at the date whenever that weight sum is strictly
positive, and `0` otherwise — in particular `0` when no symbol has data
at the date.  The `otherwise` branch is reachable beyond the no-data
case, because a held position's `total_cost` (the weight) can be
nonpositive. -/
theorem c7_amended (stocks : List StockSeries) (d : Nat) :
    portfolioAverageAt stocks d =
      (if 0 < ((withDataAt stocks d).map (·.2)).sum then
        ((withDataAt stocks d).map (fun q => q.1 * q.2)).sum /
          ((withDataAt stocks d).map (·.2)).sum
      else 0) ∧
    ((∀ s ∈ stocks, scanLast (s.dates.zip s.performance) d = none) →
      portfolioAverageAt stocks d = 0) := by
  constructor
  · rw [portfolioAverageAt, portfolioAverage_foldl stocks d 0 0]
    simp only [zero_add]
  · intro hnone
    have hempty : withDataAt stocks d = [] := by
      rw [withDataAt, List.filterMap_eq_nil_iff]
      intro s hs
      rw [hnone s hs]
      rfl
    rw [portfolioAverageAt, portfolioAverage_foldl stocks d 0 0, hempty]
    simp

/-- C7, witness: the no-data case of the amended statement at a single
stock first observed after the queried date. -/
theorem c7_witness :
    scanLast (([1] : List Nat).zip ([5] : List Rat)) 0 = none ∧
    portfolioAverageAt [⟨"A", [1], [5], 2⟩] 0 = 0 :=
  ⟨by decide, (c7_amended [⟨"A", [1], [5], 2⟩] 0).2 (by decide)⟩

/-- C8, counterexample.  For the schedule pair (month 2, day 30) with
reference date 2024-02-01 — a leap year whose February has 29 days — the
earnings projection clamps to day 28, not the last valid day 29, and the
dividend projection returns no date at all (the invalid candidate is
silently skipped and the next-year fallback is likewise invalid). -/
theorem c8_counterexample :
    nextEarningsDate [(2, 30)] ⟨2024, 2, 1⟩ = Except.ok ⟨2024, 2, 28⟩ ∧
    daysInMonth 2024 2 = 29 ∧
    (⟨2024, 2, 28⟩ : PyDate) ≠ ⟨2024, 2, 29⟩ ∧
    nextDividendDate [2] 30 ⟨2024, 2, 1⟩ = none :=
  ⟨rfl, by decide, by decide, rfl⟩

/-- C8, amended.  For any schedule pair naming an invalid calendar date
(day beyond the month's length, month within 1..12): the earnings scan
never raises but clamps the candidate to day 28 of the month — not to the
month's last valid day, so leap-year February 29/30/31 all become the
28th — while the dividend scan skips the candidate entirely, yielding no
occurrence from it. -/
theorem c8_amended (y m d exDay : Nat) (today : PyDate)
    (hm1 : 1 ≤ m) (hm2 : m ≤ 12)
    (hd : daysInMonth y m < d) (hex : daysInMonth y m < exDay) :
    earnScan [(m, d)] y today =
      Except.ok (if dateLeB today ⟨y, m, 28⟩ then some ⟨y, m, 28⟩ else none) ∧
    divScan [m] exDay y today = none := by
  have hdnone : mkDate y m d = none := by
    have : ¬ (d ≤ daysInMonth y m) := not_le_of_lt hd
    simp [mkDate, this]
  have hexnone : mkDate y m exDay = none := by
    have : ¬ (exDay ≤ daysInMonth y m) := not_le_of_lt hex
    simp [mkDate, this]
  have hmin : min d 28 = 28 :=
    min_eq_right (le_of_lt (lt_of_le_of_lt (le_daysInMonth y m) hd))
  have h28 : mkDate y m 28 = some ⟨y, m, 28⟩ := by
    rw [mkDate, if_pos]
    simp [hm1, hm2, le_daysInMonth y m]
  constructor
  · rw [earnScan, hdnone]
    rw [hmin, h28]
    by_cases hc : dateLeB today ⟨y, m, 28⟩
    · simp [hc]
    · simp [hc, earnScan]
  · rw [divScan, hexnone]
    rfl

/-- C8, witness: the amended statement at month 2, day 30 of the non-leap
year 2025. -/
theorem c8_witness :
    (1:Nat) ≤ 2 ∧ (2:Nat) ≤ 12 ∧ daysInMonth 2025 2 < 30 ∧
    earnScan [(2, 30)] 2025 ⟨2025, 1, 1⟩ =
      Except.ok (if dateLeB ⟨2025, 1, 1⟩ ⟨2025, 2, 28⟩ then
        some ⟨2025, 2, 28⟩ else none) :=
  ⟨by norm_num, by norm_num, by decide,
    (c8_amended 2025 2 30 30 ⟨2025, 1, 1⟩ (by norm_num) (by norm_num)
      (by decide) (by decide)).1⟩

/-- C9, counterexample.  With no price data in range, both
`_calculate_historical_stock_prices` and
`_calculate_portfolio_performance` return their sample payloads
themselves, not an aligned series with zero dates as the claim states. -/
theorem c9_counterexample :
    calculate_historical_stock_prices [⟨"AAPL", 10, 10, 100⟩] 0 10 "6M" [] =
      ChartResult.sample "6M" "historical" ∧
    calculate_portfolio_performance [⟨"AAPL", 10, 10, 100⟩] 0 10 "6M" [] =
      ChartResult.sample "6M" "portfolio" ∧
    ChartResult.sample "6M" "historical" ≠ ChartResult.real [] [] ∧
    ChartResult.sample "6M" "portfolio" ≠ ChartResult.realValues [] [] :=
  ⟨rfl, rfl, by decide, by decide⟩

/-- C9, amended.  Whenever no symbol has any price observation in the
requested range (so the union of observed dates is empty), both
`_calculate_historical_stock_prices` (lines 489-490) and
`_calculate_portfolio_performance` (lines 396-397) substitute the sample
placeholder payload inside the engine itself, rather than returning an
empty aligned series for the caller to handle. -/
theorem c9_amended (positions : List Position) (startD endD : Nat)
    (period : String) (pricedb : List PricePt)
    (hq : ∀ pos ∈ positions, queryPrices pos.symbol startD endD pricedb = []) :
    calculate_historical_stock_prices positions startD endD period pricedb =
      ChartResult.sample period "historical" ∧
    calculate_portfolio_performance positions startD endD period pricedb =
      ChartResult.sample period "portfolio" := by
  constructor
  · have hser : historicalSeries positions startD endD pricedb = [] := by
      rw [historicalSeries, List.filterMap_eq_nil_iff]
      intro pos hp
      simp [hq pos hp]
    rw [calculate_historical_stock_prices]
    simp [hser, alignTimeline, unionDates]
  · have hall : unionDates ((positions.map (fun pos =>
        (pos, queryPrices pos.symbol startD endD pricedb))).map
          (fun e => e.2.map (·.date))) = [] := by
      rw [List.eq_nil_iff_forall_not_mem]
      intro d hd
      rw [mem_unionDates] at hd
      obtain ⟨l, hl, hdl⟩ := hd
      rw [List.map_map, List.mem_map] at hl
      obtain ⟨pos, hpos, rfl⟩ := hl
      simp only [Function.comp_apply] at hdl
      rw [hq pos hpos] at hdl
      simp at hdl
    simp only [calculate_portfolio_performance]
    rw [hall]
    simp

/-- C9, witness: the amended statement on a one-position portfolio with
an empty price table. -/
theorem c9_witness :
    queryPrices "AAPL" 0 0 [] = [] ∧
    calculate_historical_stock_prices [⟨"AAPL", 1, 1, 1⟩] 0 0 "1W" [] =
      ChartResult.sample "1W" "historical" ∧
    calculate_portfolio_performance [⟨"AAPL", 1, 1, 1⟩] 0 0 "1W" [] =
      ChartResult.sample "1W" "portfolio" := by
  have h := c9_amended [⟨"AAPL", 1, 1, 1⟩] 0 0 "1W" [] (fun pos _ => rfl)
  exact ⟨rfl, h.1, h.2⟩

/-- C10: when the total market value is zero the allocation result is the
empty payload (no sectors and no division); when it is positive, every
emitted percentage equals its sector's value divided by the total times
100, and the percentages sum to exactly 100. -/
theorem c10_allocation (positions : List Position) (pricedb : List PricePt) :
    (totalPortfolioValue positions pricedb = 0 →
      sectorAllocation positions pricedb = ⟨[], [], [], 0⟩) ∧
    (0 < totalPortfolioValue positions pricedb →
      (∀ q ∈ (sectorAllocation positions pricedb).values.zip
          (sectorAllocation positions pricedb).percentages,
        q.2 = q.1 / totalPortfolioValue positions pricedb * 100) ∧
      (sectorAllocation positions pricedb).percentages.sum = 100) := by
  constructor
  · intro h
    rw [sectorAllocation, if_neg]
    rw [h]
    exact lt_irrefl 0
  · intro h
    have hne : totalPortfolioValue positions pricedb ≠ 0 := ne_of_gt h
    have hperm : (List.insertionSort allocGe
        ((sectorValuesOf positions pricedb).map (fun e =>
          (e, e.2 / totalPortfolioValue positions pricedb * 100)))).Perm
        ((sectorValuesOf positions pricedb).map (fun e =>
          (e, e.2 / totalPortfolioValue positions pricedb * 100))) :=
      List.perm_insertionSort _ _
    simp only [sectorAllocation, if_pos h]
    constructor
    · intro q hq
      rw [List.zip_map'] at hq
      obtain ⟨t, ht, rfl⟩ := List.mem_map.mp hq
      have ht' := hperm.mem_iff.mp ht
      obtain ⟨e, _, rfl⟩ := List.mem_map.mp ht'
      rfl
    · have hsum : ((List.insertionSort allocGe
          ((sectorValuesOf positions pricedb).map (fun e =>
            (e, e.2 / totalPortfolioValue positions pricedb * 100)))).map
          (·.2)).sum =
        (((sectorValuesOf positions pricedb).map (fun e =>
            (e, e.2 / totalPortfolioValue positions pricedb * 100))).map
          (·.2)).sum :=
        (hperm.map (·.2)).sum_eq
      simp only [hsum, List.map_map]
      have hfun : ((fun q : (String × Rat) × Rat => q.2) ∘ (fun e : String × Rat =>
          (e, e.2 / totalPortfolioValue positions pricedb * 100))) =
          fun e : String × Rat =>
            e.2 * (100 / totalPortfolioValue positions pricedb) := by
        funext e
        simp only [Function.comp_apply]
        ring
      rw [hfun, List.sum_map_mul_right, sectorValues_sum, mul_comm,
        div_mul_cancel₀ _ hne]

/-- C10, witness: a single held position valued by its cost fallback
gives a positive total and percentages summing to 100. -/
theorem c10_witness :
    (0:Rat) < totalPortfolioValue [⟨"AAPL", 2, 10, 20⟩] [] ∧
    (sectorAllocation [⟨"AAPL", 2, 10, 20⟩] []).percentages.sum = 100 := by
  have h : (0:Rat) < totalPortfolioValue [⟨"AAPL", 2, 10, 20⟩] [] := by
    norm_num [totalPortfolioValue, positionValue, latestPrice]
  exact ⟨h, (c10_allocation [⟨"AAPL", 2, 10, 20⟩] []).2 h |>.2⟩

end PortfolioSuite
